import Mathlib

/-!
Verification of the spectral-to-colorimetric pipeline of the colour library.

Part 1 models the photometric core (SpectralDistribution, alignment,
integration, photometric reducers) over exact rationals.  The photometry
implementation itself is not part of the source tree (only its unit tests
are), so those definitions are modelled from the specification, as marked
in their doc comments.  Part 2 embeds the colourspace-model dispatch of
`colour/models/common.py` and the ROMM / RIMM transfer functions of
`colour/models/rgb/transfer_functions/rimm_romm_rgb.py`, which are in the
source tree, over the reals.
-/

namespace Colour

/-- Modelled from the spec: a SpectralDistribution is an ordered mapping from
wavelength (nanometres) to a scalar sample value; keys are kept as a list of
pairs, sorted strictly increasing for well-formed distributions. -/
abbrev SPD := List (ℚ × ℚ)

/-- Modelled from the spec: the wavelengths (keys) of a distribution. -/
def wavelengths (spd : SPD) : List ℚ := spd.map Prod.fst

/-- Modelled from the spec: the sample values of a distribution. -/
def values (spd : SPD) : List ℚ := spd.map Prod.snd

/-- Modelled from the spec: a wavelength-domain descriptor (start, end,
interval) describing a regular grid; `stop` stands for the spec's `end`,
which is a reserved word. -/
structure SpectralShape where
  start : ℚ
  stop : ℚ
  interval : ℚ
deriving DecidableEq

/-- Modelled from the spec: first wavelength of a key list (0 for the
degenerate empty distribution). -/
def startOf : List ℚ → ℚ
  | [] => 0
  | k :: _ => k

/-- Modelled from the spec: last wavelength of a key list (0 for the
degenerate empty distribution). -/
def stopOf (ks : List ℚ) : ℚ := ks.getLastD 0

/-- Modelled from the spec: the grid step of a key list.  The spec defines a
shape only for regularly sampled data, where every consecutive difference is
the interval; the model reads the first consecutive difference and falls back
to 1 for lists with fewer than two keys. -/
def intervalOf : List ℚ → ℚ
  | k₁ :: k₂ :: _ => k₂ - k₁
  | _ => 1

/-- Modelled from the spec: the native shape of a distribution, i.e. the
domain descriptor [min key, max key] with the distribution's own step. -/
def nativeShape (spd : SPD) : SpectralShape :=
  ⟨startOf (wavelengths spd), stopOf (wavelengths spd), intervalOf (wavelengths spd)⟩

/-- Modelled from the spec: number of points of the regular grid covering the
shape. -/
def SpectralShape.count (s : SpectralShape) : ℕ :=
  (⌊(s.stop - s.start) / s.interval⌋).toNat + 1

/-- Modelled from the spec: the regular wavelength grid covering the shape. -/
def SpectralShape.grid (s : SpectralShape) : List ℚ :=
  (List.range s.count).map fun (i : ℕ) => s.start + (i : ℚ) * s.interval

/-- Modelled from the spec: point query with explicit interpolation.  An exact
stored key returns the stored value; a wavelength strictly between two keys is
linearly interpolated; a wavelength outside the domain is extrapolated with
the default constant policy (hold the boundary value).  The spec prescribes
Sprague (1880) interpolation for uniformly spaced data with at least six
points but does not give its formula; the model uses the spec's linear
fallback for every non-node query.  Every claim settled here touches only
node values (where any interpolating method returns the stored data) or range
properties. -/
def query : SPD → ℚ → ℚ
  | [], _ => 0
  | [(_, v)], _ => v
  | (k₁, v₁) :: (k₂, v₂) :: rest, w =>
    if w ≤ k₁ then v₁
    else if w < k₂ then v₁ + (v₂ - v₁) * (w - k₁) / (k₂ - k₁)
    else query ((k₂, v₂) :: rest) w

/-- Modelled from the spec: `align(shape)` resamples onto the regular grid
over `shape` using the interpolation/extrapolation policy of `query`; the
result covers exactly the shape's domain.  Cloning is the identity in this
pure model. -/
def align (spd : SPD) (s : SpectralShape) : SPD :=
  s.grid.map fun w => (w, query spd w)

/-- Modelled from the spec: `zeros_spd()` builds an SPD over the default
visible-spectrum shape (360 to 780 nm, 1 nm step) with every value zero. -/
def zeros_spd : SPD :=
  (List.range 421).map fun (i : ℕ) => ((360 : ℚ) + (i : ℚ), 0)

/-- Modelled from the spec: point assignment `spd[w] = v`, updating a stored
key or inserting a new one in wavelength order. -/
def setValue : SPD → ℚ → ℚ → SPD
  | [], w, v => [(w, v)]
  | (k, u) :: rest, w, v =>
    if w < k then (w, v) :: (k, u) :: rest
    else if w = k then (w, v) :: rest
    else (k, u) :: setValue rest w v

/-- Modelled from the spec: the maximum sample value (0 for the degenerate
empty distribution). -/
def maxValue (spd : SPD) : ℚ :=
  match values spd with
  | [] => 0
  | v :: vs => vs.foldl max v

/-- Modelled from the spec: `normalise()` rescales all values so the maximum
equals 1 by dividing every value by the maximum; mutation in place is
modelled functionally by returning the rescaled distribution. -/
def normalise (spd : SPD) : SPD :=
  spd.map fun p => (p.1, p.2 / maxValue spd)

/-- Modelled from the spec: discrete rectangular integration, the sum of the
values times the shared uniform grid step. -/
def integrate (spd : SPD) : ℚ :=
  (values spd).sum * intervalOf (wavelengths spd)

/-- Modelled from the spec: integration of the elementwise product of two
distributions already aligned to one common regularly spaced domain. -/
def integrate_product (a b : SPD) : ℚ :=
  (List.zipWith (fun x y => x * y) (values a) (values b)).sum *
    intervalOf (wavelengths a)

/-- Modelled from the spec: the maximum luminous efficacy constant, in
lumens per watt.  The spec's prose states 683.002, but the unit tests in
`src/colour/colorimetry/tests/tests_photometry.py` pin the luminous efficacy
of a unit spike at 555 nm to 682.99999999999989 within 5e-8, which forces the
value 683 (683.002 would be off by 2e-3). -/
def K_M : ℚ := 683

/-- Modelled from the spec: `luminous_efficiency(spd, lef)` aligns `spd` onto
the luminous efficiency function's native domain and returns the ratio of the
product integral to the integral of the aligned distribution; the division by
zero on a degenerate (zero-integral) input is an error, modelled as `none`. -/
def luminous_efficiency (spd lef : SPD) : Option ℚ :=
  let spdA := align spd (nativeShape lef)
  let den := integrate spdA
  if den = 0 then none
  else some (integrate_product spdA lef / den)

/-- Modelled from the spec: `luminous_efficacy(spd, lef)` is
`luminous_efficiency(spd, lef) * K_m`. -/
def luminous_efficacy (spd lef : SPD) : Option ℚ :=
  (luminous_efficiency spd lef).map fun e => e * K_M

/-- A regularly sampled distribution: keys start at `a` with step `d`, values
given by `f`.  This is the well-formed shape of every dataset distribution
used by the spec. -/
def uniList (a d : ℚ) (n : ℕ) (f : ℕ → ℚ) : SPD :=
  (List.range n).map fun (i : ℕ) => (a + (i : ℚ) * d, f i)

/-! ### List helpers -/

lemma sum_map_range_succ (f : ℕ → ℚ) (n : ℕ) :
    ((List.range (n + 1)).map f).sum = ((List.range n).map f).sum + f n := by
  rw [show List.range (n + 1) = List.range n ++ [n] from List.range_succ n]
  simp

lemma sum_map_range_zero (f : ℕ → ℚ) (n : ℕ) (h0 : ∀ i, i < n → f i = 0) :
    ((List.range n).map f).sum = 0 := by
  induction n with
  | zero => simp
  | succ m ih =>
    rw [sum_map_range_succ, ih fun i hi => h0 i (Nat.lt_succ_of_lt hi),
      h0 m (Nat.lt_succ_self m)]
    ring

lemma sum_map_range_single (f : ℕ → ℚ) (n j : ℕ) (hj : j < n)
    (h0 : ∀ i, i < n → i ≠ j → f i = 0) :
    ((List.range n).map f).sum = f j := by
  induction n with
  | zero => omega
  | succ m ih =>
    rw [sum_map_range_succ]
    rcases Nat.lt_or_ge j m with hjm | hjm
    · rw [ih hjm fun i hi hne => h0 i (Nat.lt_succ_of_lt hi) hne,
        h0 m (Nat.lt_succ_self m) (by omega)]
      ring
    · have hjm2 : j = m := by omega
      subst hjm2
      rw [sum_map_range_zero f j fun i hi => h0 i (Nat.lt_succ_of_lt hi) (by omega)]
      ring

lemma zipWith_map_same {α β γ δ : Type} (h : β → γ → δ) (p : α → β) (q : α → γ) :
    ∀ l : List α, List.zipWith h (l.map p) (l.map q) = l.map fun i => h (p i) (q i)
  | [] => rfl
  | a :: l => by
    simp only [List.map_cons, List.zipWith_cons_cons, zipWith_map_same h p q l]

lemma getLastD_map_range (f : ℕ → ℚ) (n : ℕ) (hn : 0 < n) (d : ℚ) :
    ((List.range n).map f).getLastD d = f (n - 1) := by
  obtain ⟨m, rfl⟩ : ∃ m, n = m + 1 := ⟨n - 1, by omega⟩
  rw [show List.range (m + 1) = List.range m ++ [m] from List.range_succ m]
  simp

lemma range_two_cons (m : ℕ) :
    List.range (m + 2) = 0 :: 1 :: (List.range m).map fun i => i + 2 := by
  rw [show List.range (m + 2) = 0 :: (List.range (m + 1)).map Nat.succ from
      List.range_succ_eq_map (m + 1),
    show List.range (m + 1) = 0 :: (List.range m).map Nat.succ from
      List.range_succ_eq_map m]
  simp [List.map_map]

lemma range_one_eq : List.range 1 = [0] := rfl

lemma range_two_eq : List.range 2 = [0, 1] := rfl

lemma wavelengths_cons (p : ℚ × ℚ) (l : SPD) :
    wavelengths (p :: l) = p.1 :: wavelengths l := rfl

lemma values_cons (p : ℚ × ℚ) (l : SPD) :
    values (p :: l) = p.2 :: values l := rfl

lemma wavelengths_uniList (a d : ℚ) (n : ℕ) (f : ℕ → ℚ) :
    wavelengths (uniList a d n f) =
      (List.range n).map fun (i : ℕ) => a + (i : ℚ) * d := by
  unfold wavelengths uniList
  rw [List.map_map]
  exact List.map_congr_left fun i _ => rfl

lemma values_uniList (a d : ℚ) (n : ℕ) (f : ℕ → ℚ) :
    values (uniList a d n f) = (List.range n).map f := by
  unfold values uniList
  rw [List.map_map]
  exact List.map_congr_left fun i _ => rfl

lemma pairwise_keys_uniList (a d : ℚ) (hd : 0 < d) (n : ℕ) (f : ℕ → ℚ) :
    (wavelengths (uniList a d n f)).Pairwise (· < ·) := by
  rw [wavelengths_uniList]
  refine List.Pairwise.map _ ?_ (List.pairwise_lt_range n)
  intro i j hij
  have hq : (i : ℚ) < (j : ℚ) := by exact_mod_cast hij
  have := mul_lt_mul_of_pos_right hq hd
  linarith

/-! ### Query lemmas -/

lemma query_le_head (k v : ℚ) (rest : SPD) (w : ℚ) (hw : w ≤ k) :
    query ((k, v) :: rest) w = v := by
  cases rest with
  | nil => rfl
  | cons p rest2 =>
    obtain ⟨k₂, v₂⟩ := p
    simp [query, hw]

lemma query_exact (l : SPD) (hs : (wavelengths l).Pairwise (· < ·)) (w v : ℚ)
    (hmem : (w, v) ∈ l) : query l w = v := by
  induction l with
  | nil => simp at hmem
  | cons p rest ih =>
    obtain ⟨k₁, v₁⟩ := p
    rw [wavelengths_cons] at hs
    obtain ⟨hhead, htail⟩ := List.pairwise_cons.mp hs
    rcases List.mem_cons.mp hmem with heq | hmem2
    · simp only [Prod.mk.injEq] at heq
      obtain ⟨rfl, rfl⟩ := heq
      exact query_le_head w v rest w le_rfl
    · have hwmem : w ∈ wavelengths rest := by
        simpa [wavelengths] using List.mem_map_of_mem Prod.fst hmem2
      have hwk : k₁ < w := hhead w hwmem
      cases rest with
      | nil => simp at hmem2
      | cons p₂ rest₂ =>
        obtain ⟨k₂, v₂⟩ := p₂
        have hk₁₂ : k₁ < k₂ := hhead k₂ (by simp [wavelengths])
        have hk₂w : k₂ ≤ w := by
          rcases List.mem_cons.mp hmem2 with heq2 | hmem3
          · simp only [Prod.mk.injEq] at heq2
            exact heq2.1.ge
          · rw [wavelengths_cons] at htail
            obtain ⟨hhead₂, _⟩ := List.pairwise_cons.mp htail
            have hwmem₂ : w ∈ wavelengths rest₂ := by
              simpa [wavelengths] using List.mem_map_of_mem Prod.fst hmem3
            exact (hhead₂ w hwmem₂).le
        simp only [query]
        rw [if_neg (by linarith), if_neg (by linarith)]
        exact ih htail hmem2

lemma query_ge_all (l : SPD) (hs : (wavelengths l).Pairwise (· < ·)) (w : ℚ)
    (hne : l ≠ []) (hw : ∀ k ∈ wavelengths l, k ≤ w) :
    query l w = (values l).getLastD 0 := by
  induction l with
  | nil => exact absurd rfl hne
  | cons p rest ih =>
    obtain ⟨k₁, v₁⟩ := p
    rw [wavelengths_cons] at hs hw
    obtain ⟨hhead, htail⟩ := List.pairwise_cons.mp hs
    cases rest with
    | nil => simp [query, values]
    | cons p₂ rest₂ =>
      obtain ⟨k₂, v₂⟩ := p₂
      have hk₁₂ : k₁ < k₂ := hhead k₂ (by simp [wavelengths])
      have hk₂w : k₂ ≤ w := by
        refine hw k₂ (List.mem_cons_of_mem _ ?_)
        simp [wavelengths]
      simp only [query]
      rw [if_neg (by linarith), if_neg (by linarith)]
      rw [ih htail (by simp) fun k hk => hw k (List.mem_cons_of_mem _ hk)]
      rw [values_cons (k₁, v₁), values_cons (k₂, v₂)]
      simp [List.getLastD_cons]

lemma query_nonneg (l : SPD) (hs : (wavelengths l).Pairwise (· < ·))
    (hv : ∀ v ∈ values l, 0 ≤ v) (w : ℚ) : 0 ≤ query l w := by
  induction l with
  | nil => simp [query]
  | cons p rest ih =>
    obtain ⟨k₁, v₁⟩ := p
    rw [wavelengths_cons] at hs
    rw [values_cons] at hv
    obtain ⟨hhead, htail⟩ := List.pairwise_cons.mp hs
    have hv₁ : 0 ≤ v₁ := hv v₁ (by simp)
    cases rest with
    | nil => simpa [query] using hv₁
    | cons p₂ rest₂ =>
      obtain ⟨k₂, v₂⟩ := p₂
      have hv₂ : 0 ≤ v₂ := by
        refine hv v₂ (List.mem_cons_of_mem _ ?_)
        rw [values_cons]
        simp
      have hk₁₂ : k₁ < k₂ := hhead k₂ (by simp [wavelengths])
      by_cases h1 : w ≤ k₁
      · rw [query_le_head _ _ _ _ h1]
        exact hv₁
      · by_cases h2 : w < k₂
        · simp only [query]
          rw [if_neg h1, if_pos h2]
          have hwk : k₁ < w := not_le.mp h1
          have hne : k₂ - k₁ ≠ 0 := sub_ne_zero.mpr hk₁₂.ne'
          have heq : v₁ + (v₂ - v₁) * (w - k₁) / (k₂ - k₁) =
              ((k₂ - w) * v₁ + (w - k₁) * v₂) / (k₂ - k₁) := by
            field_simp
            ring
          rw [heq]
          apply div_nonneg _ (by linarith)
          have h3 : 0 ≤ (k₂ - w) * v₁ := mul_nonneg (by linarith) hv₁
          have h4 : 0 ≤ (w - k₁) * v₂ := mul_nonneg (by linarith) hv₂
          linarith
        · simp only [query]
          rw [if_neg h1, if_neg h2]
          exact ih htail fun u hu => hv u (List.mem_cons_of_mem _ hu)

lemma zip_mul_sum_bounds :
    ∀ (xs ys : List ℚ), (∀ x ∈ xs, 0 ≤ x) → (∀ y ∈ ys, 0 ≤ y ∧ y ≤ 1) →
      0 ≤ (List.zipWith (fun x y => x * y) xs ys).sum ∧
        (List.zipWith (fun x y => x * y) xs ys).sum ≤ xs.sum
  | [], _, _, _ => by simp
  | x :: xs, [], hx, _ => by
    refine ⟨by simp, ?_⟩
    simp only [List.zipWith_nil_right, List.sum_nil]
    exact List.sum_nonneg hx
  | x :: xs, y :: ys, hx, hy => by
    have hx0 : 0 ≤ x := hx x (by simp)
    have hy0 := hy y (by simp)
    have ih := zip_mul_sum_bounds xs ys (fun a ha => hx a (by simp [ha]))
      (fun b hb => hy b (by simp [hb]))
    simp only [List.zipWith_cons_cons, List.sum_cons]
    constructor
    · have hxy : 0 ≤ x * y := mul_nonneg hx0 hy0.1
      linarith [ih.1]
    · have hxy : x * y ≤ x := by nlinarith [hy0.2]
      linarith [ih.2]

/-! ### Regular-grid distributions -/

lemma uniList_length (a d : ℚ) (n : ℕ) (f : ℕ → ℚ) : (uniList a d n f).length = n := by
  unfold uniList
  simp

lemma uniList_ne_nil (a d : ℚ) (n : ℕ) (hn : 0 < n) (f : ℕ → ℚ) :
    uniList a d n f ≠ [] := by
  intro h
  have hlen := congrArg List.length h
  rw [uniList_length] at hlen
  simp at hlen
  omega

lemma query_uniList_exact (a d : ℚ) (hd : 0 < d) (n j : ℕ) (hj : j < n) (f : ℕ → ℚ) :
    query (uniList a d n f) (a + (j : ℚ) * d) = f j := by
  refine query_exact _ (pairwise_keys_uniList a d hd n f) _ _ ?_
  unfold uniList
  exact List.mem_map_of_mem _ (List.mem_range.mpr hj)

lemma query_uniList_le (a d : ℚ) (n : ℕ) (hn : 0 < n) (f : ℕ → ℚ) (w : ℚ)
    (hw : w ≤ a) : query (uniList a d n f) w = f 0 := by
  obtain ⟨m, rfl⟩ : ∃ m, n = m + 1 := ⟨n - 1, by omega⟩
  unfold uniList
  rw [show List.range (m + 1) = 0 :: (List.range m).map Nat.succ from
      List.range_succ_eq_map m]
  rw [List.map_cons]
  refine query_le_head _ _ _ _ ?_
  simpa using hw

lemma query_uniList_ge (a d : ℚ) (hd : 0 < d) (n : ℕ) (hn : 0 < n) (f : ℕ → ℚ)
    (w : ℚ) (hw : a + ((n - 1 : ℕ) : ℚ) * d ≤ w) :
    query (uniList a d n f) w = f (n - 1) := by
  have hkeys : ∀ k ∈ wavelengths (uniList a d n f), k ≤ w := by
    rw [wavelengths_uniList]
    intro k hk
    obtain ⟨i, hi, rfl⟩ := List.mem_map.mp hk
    have hin : i < n := List.mem_range.mp hi
    have hile : (i : ℚ) ≤ ((n - 1 : ℕ) : ℚ) := by
      have h2 : i ≤ n - 1 := by omega
      exact_mod_cast h2
    have := mul_le_mul_of_nonneg_right hile hd.le
    linarith
  rw [query_ge_all _ (pairwise_keys_uniList a d hd n f) w (uniList_ne_nil a d n hn f)
    hkeys]
  rw [values_uniList]
  exact getLastD_map_range f n hn 0

lemma startOf_uniList (a d : ℚ) (n : ℕ) (hn : 0 < n) (f : ℕ → ℚ) :
    startOf (wavelengths (uniList a d n f)) = a := by
  obtain ⟨m, rfl⟩ : ∃ m, n = m + 1 := ⟨n - 1, by omega⟩
  rw [wavelengths_uniList]
  rw [show List.range (m + 1) = 0 :: (List.range m).map Nat.succ from
      List.range_succ_eq_map m]
  simp [startOf]

lemma stopOf_uniList (a d : ℚ) (n : ℕ) (hn : 0 < n) (f : ℕ → ℚ) :
    stopOf (wavelengths (uniList a d n f)) = a + ((n - 1 : ℕ) : ℚ) * d := by
  rw [wavelengths_uniList]
  unfold stopOf
  exact getLastD_map_range _ n hn 0

lemma intervalOf_map_range (a d : ℚ) (n : ℕ) (hn : 2 ≤ n) :
    intervalOf ((List.range n).map fun (i : ℕ) => a + (i : ℚ) * d) = d := by
  obtain ⟨m, rfl⟩ : ∃ m, n = m + 2 := ⟨n - 2, by omega⟩
  rw [range_two_cons]
  simp only [List.map_cons, intervalOf]
  push_cast
  ring

lemma intervalOf_uniList (a d : ℚ) (n : ℕ) (hn : 2 ≤ n) (f : ℕ → ℚ) :
    intervalOf (wavelengths (uniList a d n f)) = d := by
  rw [wavelengths_uniList]
  exact intervalOf_map_range a d n hn

lemma nativeShape_uniList (a d : ℚ) (n : ℕ) (hn : 2 ≤ n) (f : ℕ → ℚ) :
    nativeShape (uniList a d n f) = ⟨a, a + ((n - 1 : ℕ) : ℚ) * d, d⟩ := by
  unfold nativeShape
  rw [startOf_uniList a d n (by omega) f, stopOf_uniList a d n (by omega) f,
    intervalOf_uniList a d n hn f]

lemma count_shape (a d : ℚ) (hd : d ≠ 0) (m : ℕ) :
    (SpectralShape.mk a (a + (m : ℚ) * d) d).count = m + 1 := by
  show (⌊((a + (m : ℚ) * d) - a) / d⌋).toNat + 1 = m + 1
  rw [show a + (m : ℚ) * d - a = (m : ℚ) * d from by ring,
    mul_div_cancel_right₀ _ hd, Int.floor_natCast, Int.toNat_natCast]

lemma grid_shape (a d : ℚ) (hd : d ≠ 0) (m : ℕ) :
    (SpectralShape.mk a (a + (m : ℚ) * d) d).grid =
      (List.range (m + 1)).map fun (i : ℕ) => a + (i : ℚ) * d := by
  unfold SpectralShape.grid
  rw [count_shape a d hd m]

lemma align_shape_map (spd : SPD) (a d : ℚ) (hd : d ≠ 0) (m : ℕ) :
    align spd (SpectralShape.mk a (a + (m : ℚ) * d) d) =
      (List.range (m + 1)).map fun (i : ℕ) =>
        (a + (i : ℚ) * d, query spd (a + (i : ℚ) * d)) := by
  unfold align
  rw [grid_shape a d hd m, List.map_map]
  rfl

lemma wavelengths_align (spd : SPD) (s : SpectralShape) :
    wavelengths (align spd s) = s.grid := by
  unfold wavelengths align
  rw [List.map_map]
  exact (List.map_congr_left fun w _ => rfl).trans (List.map_id' _)

lemma values_align (spd : SPD) (s : SpectralShape) :
    values (align spd s) = s.grid.map fun w => query spd w := by
  unfold values align
  rw [List.map_map]
  rfl

/-! ### Claims settled against the photometric model -/

/-- C6: resampling a SpectralDistribution onto its own native shape is the
identity (so in particular the value at every original sample wavelength
equals the original stored value).  The distribution is regularly sampled
with a positive step — the spec defines a native shape (a regular-grid
descriptor) only for such distributions — and cloning is the identity in
the pure model. -/
theorem claim_C6_align_native_shape_identity (a d : ℚ) (n : ℕ) (f : ℕ → ℚ)
    (hd : 0 < d) (hn : 0 < n) :
    align (uniList a d n f) (nativeShape (uniList a d n f)) = uniList a d n f := by
  rcases Nat.lt_or_ge n 2 with h2 | h2
  · have hn1 : n = 1 := by omega
    subst hn1
    have e1 : uniList a d 1 f = [(a, f 0)] := by
      unfold uniList
      rw [range_one_eq]
      simp
    rw [e1]
    have e2 : nativeShape [(a, f 0)] = ⟨a, a, 1⟩ := by
      have hw : wavelengths [(a, f 0)] = [a] := rfl
      unfold nativeShape
      rw [hw]
      rfl
    rw [e2]
    have e3 : (SpectralShape.mk a a 1).grid = [a] := by
      unfold SpectralShape.grid SpectralShape.count
      norm_num [range_one_eq]
    unfold align
    rw [e3]
    simp [query]
  · rw [nativeShape_uniList a d n h2 f]
    obtain ⟨m, hm⟩ : ∃ m, n = m + 1 := ⟨n - 1, by omega⟩
    have hcast : ((n - 1 : ℕ) : ℚ) = (m : ℚ) := by
      rw [hm]
      norm_num
    rw [hcast, align_shape_map (uniList a d n f) a d hd.ne' m]
    have hexp : uniList a d (m + 1) f =
        (List.range (m + 1)).map fun (i : ℕ) => (a + (i : ℚ) * d, f i) := rfl
    conv_rhs => rw [hm, hexp]
    refine List.map_congr_left ?_
    intro i hi
    have hin : i < m + 1 := List.mem_range.mp hi
    rw [query_uniList_exact a d hd n i (by omega) f]

/-- C6 witness: a concrete two-point distribution is unchanged by alignment
onto its own native shape. -/
theorem claim_C6_witness :
    align (uniList 360 1 2 fun i => (i : ℚ))
        (nativeShape (uniList 360 1 2 fun i => (i : ℚ))) =
      uniList 360 1 2 fun i => (i : ℚ) :=
  claim_C6_align_native_shape_identity 360 1 2 (fun i => (i : ℚ)) (by norm_num)
    (by norm_num)

lemma values_normalise (spd : SPD) :
    values (normalise spd) = (values spd).map fun v => v / maxValue spd := by
  unfold values normalise
  rw [List.map_map, List.map_map]
  rfl

lemma wavelengths_normalise (spd : SPD) :
    wavelengths (normalise spd) = wavelengths spd := by
  unfold wavelengths normalise
  rw [List.map_map]
  rfl

lemma foldl_max_div (c : ℚ) (hc : 0 < c) :
    ∀ (vs : List ℚ) (v : ℚ),
      (vs.map fun x => x / c).foldl max (v / c) = (vs.foldl max v) / c
  | [], _ => rfl
  | x :: vs, v => by
    simp only [List.map_cons, List.foldl_cons]
    rw [show max (v / c) (x / c) = max v x / c from max_div_div_right hc.le v x]
    exact foldl_max_div c hc vs (max v x)

lemma maxValue_cons_values (spd : SPD) (v : ℚ) (vs : List ℚ)
    (h : values spd = v :: vs) : maxValue spd = vs.foldl max v := by
  unfold maxValue
  rw [h]

lemma maxValue_nil_values (spd : SPD) (h : values spd = []) : maxValue spd = 0 := by
  unfold maxValue
  rw [h]

lemma maxValue_normalise (spd : SPD) (hpos : 0 < maxValue spd) :
    maxValue (normalise spd) = 1 := by
  rcases hvals : values spd with _ | ⟨v, vs⟩
  · exfalso
    rw [maxValue_nil_values spd hvals] at hpos
    exact lt_irrefl 0 hpos
  · have h1 : values (normalise spd) =
        (v / maxValue spd) :: (vs.map fun x => x / maxValue spd) := by
      rw [values_normalise, hvals, List.map_cons]
    rw [maxValue_cons_values (normalise spd) _ _ h1,
      foldl_max_div (maxValue spd) hpos vs v,
      ← maxValue_cons_values spd v vs hvals]
    exact div_self hpos.ne'

/-- C7 (amended): for a SpectralDistribution whose maximum value is positive
(in particular any physically valid non-negative distribution with a nonzero
value), `clone().normalise()` yields a distribution whose maximum value is
exactly 1 and whose wavelength keys are unchanged; in-place mutation and
returning the receiver are modelled by returning the rescaled
distribution. -/
theorem claim_C7_normalise_max_one (spd : SPD) (hpos : 0 < maxValue spd) :
    maxValue (normalise spd) = 1 ∧
      wavelengths (normalise spd) = wavelengths spd :=
  ⟨maxValue_normalise spd hpos, wavelengths_normalise spd⟩

/-- C7 counterexample: the claim as stated (any distribution with at least
one nonzero value) fails — an all-negative distribution has a nonzero value,
yet normalising it does not produce maximum 1. -/
theorem claim_C7_counterexample :
    (-2 : ℚ) ∈ values [((500 : ℚ), (-2 : ℚ)), (510, -1)] ∧ (-2 : ℚ) ≠ 0 ∧
      maxValue (normalise [((500 : ℚ), (-2 : ℚ)), (510, -1)]) ≠ 1 := by
  refine ⟨by simp [values], by norm_num, ?_⟩
  have hM : maxValue [((500 : ℚ), (-2 : ℚ)), (510, -1)] = -1 := by
    rw [maxValue_cons_values [((500 : ℚ), (-2 : ℚ)), (510, -1)] (-2) [-1] rfl]
    simp only [List.foldl_cons, List.foldl_nil]
    exact max_eq_right (by norm_num)
  have h1 : values (normalise [((500 : ℚ), (-2 : ℚ)), (510, -1)]) =
      [(2 : ℚ), 1] := by
    rw [values_normalise, hM]
    norm_num [values]
  rw [maxValue_cons_values _ 2 [1] h1]
  simp only [List.foldl_cons, List.foldl_nil]
  rw [max_eq_left (by norm_num : (1 : ℚ) ≤ 2)]
  norm_num

/-- C7 witness: a concrete positive-valued distribution normalises to
maximum 1 with unchanged keys. -/
theorem claim_C7_witness :
    0 < maxValue [((500 : ℚ), 2), (510, 4)] ∧
      (maxValue (normalise [((500 : ℚ), 2), (510, 4)]) = 1 ∧
        wavelengths (normalise [((500 : ℚ), 2), (510, 4)]) =
          wavelengths [((500 : ℚ), 2), (510, 4)]) := by
  have hM : maxValue [((500 : ℚ), 2), (510, 4)] = 4 := by
    rw [maxValue_cons_values [((500 : ℚ), 2), (510, 4)] 2 [4] rfl]
    simp only [List.foldl_cons, List.foldl_nil]
    exact max_eq_right (by norm_num)
  exact ⟨by rw [hM]; norm_num,
    claim_C7_normalise_max_one _ (by rw [hM]; norm_num)⟩

/-- C4: for a physically valid (non-negative, strictly increasing keys)
distribution and a luminous efficiency function with values in [0, 1],
every value returned by `luminous_efficiency` lies in the closed interval
[0, 1]. -/
theorem claim_C4_luminous_efficiency_unit_interval (spd lef : SPD)
    (hs : (wavelengths spd).Pairwise (· < ·))
    (hv : ∀ v ∈ values spd, 0 ≤ v)
    (hl : ∀ v ∈ values lef, 0 ≤ v ∧ v ≤ 1)
    (e : ℚ) (he : luminous_efficiency spd lef = some e) :
    0 ≤ e ∧ e ≤ 1 := by
  have hsA : ∀ v ∈ values (align spd (nativeShape lef)), 0 ≤ v := by
    rw [values_align]
    intro v hvv
    obtain ⟨w, _, rfl⟩ := List.mem_map.mp hvv
    exact query_nonneg spd hs hv w
  unfold luminous_efficiency at he
  by_cases hden : integrate (align spd (nativeShape lef)) = 0
  · rw [if_pos hden] at he
    exact absurd he (by simp)
  · rw [if_neg hden] at he
    have he2 : integrate_product (align spd (nativeShape lef)) lef /
        integrate (align spd (nativeShape lef)) = e := by
      simpa using he
    unfold integrate integrate_product at he2
    unfold integrate at hden
    set r := intervalOf (wavelengths (align spd (nativeShape lef))) with hr
    set S := (values (align spd (nativeShape lef))).sum with hS
    set Z := (List.zipWith (fun x y => x * y)
      (values (align spd (nativeShape lef))) (values lef)).sum with hZ
    obtain ⟨hSne, hrne⟩ := mul_ne_zero_iff.mp hden
    have hzb := zip_mul_sum_bounds _ _ hsA hl
    have hZ0 : 0 ≤ Z := hzb.1
    have hZS : Z ≤ S := hzb.2
    have hS0 : 0 < S := lt_of_le_of_ne (List.sum_nonneg hsA) (Ne.symm hSne)
    have he3 : e = Z / S := by
      rw [← he2, mul_div_mul_right _ _ hrne]
    rw [he3]
    exact ⟨div_nonneg hZ0 hS0.le, (div_le_one hS0).mpr hZS⟩

/-- C4 witness: a concrete non-negative distribution and efficiency function
give an efficiency inside [0, 1]. -/
theorem claim_C4_witness : 0 ≤ (5 / 16 : ℚ) ∧ (5 / 16 : ℚ) ≤ 1 :=
  claim_C4_luminous_efficiency_unit_interval
    [((500 : ℚ), 1), (510, 3)] [((500 : ℚ), 1 / 2), (510, 1 / 4)]
    (by norm_num [wavelengths, List.pairwise_cons])
    (by norm_num [values])
    (by norm_num [values])
    (5 / 16)
    (by norm_num [luminous_efficiency, align, nativeShape, wavelengths, values,
      startOf, stopOf, intervalOf, SpectralShape.grid, SpectralShape.count,
      integrate, integrate_product, query, List.range_succ, List.range_zero,
      range_one_eq, Function.comp])

/-- C5: `luminous_efficiency` signals the degenerate-input error (modelled
as `none`, so no partial numeric result exists) exactly when the integral of
the input distribution — resampled onto the efficiency function's domain,
which is the denominator of the ratio — is zero. -/
theorem claim_C5_efficiency_error_iff_zero_integral (spd lef : SPD) :
    luminous_efficiency spd lef = none ↔
      integrate (align spd (nativeShape lef)) = 0 := by
  unfold luminous_efficiency
  by_cases h : integrate (align spd (nativeShape lef)) = 0
  · simp [h]
  · simp [h]

/-- C1 (amended): luminous efficacy is luminous efficiency multiplied by the
constant K_m = 683 — not 683.002 as the claim states; the unit tests pin the
555 nm spike to about 683, which 683.002 would miss by 2e-3. -/
theorem claim_C1_efficacy_eq_efficiency_mul_K_M (spd lef : SPD) :
    luminous_efficacy spd lef =
      (luminous_efficiency spd lef).map fun e => e * 683 := rfl

/-- C1 counterexample: at a concrete monochromatic distribution the product
of the efficiency with 683.002 misses the efficacy by 2e-3, far beyond
floating-point tolerance (the tests use 5e-8). -/
theorem claim_C1_counterexample :
    luminous_efficacy [((555 : ℚ), 1)] [((555 : ℚ), 1)] = some 683 ∧
      luminous_efficiency [((555 : ℚ), 1)] [((555 : ℚ), 1)] = some 1 ∧
      ¬ |(683 : ℚ) - 1 * 683.002| < 1 / 1000 := by
  have heff : luminous_efficiency [((555 : ℚ), 1)] [((555 : ℚ), 1)] = some 1 := by
    norm_num [luminous_efficiency, align, nativeShape, wavelengths, values,
      startOf, stopOf, intervalOf, SpectralShape.grid, SpectralShape.count,
      integrate, integrate_product, query, range_one_eq, Function.comp]
  refine ⟨?_, heff, ?_⟩
  · rw [luminous_efficacy, heff]
    norm_num [K_M]
  · rw [show (683 : ℚ) - 1 * 683.002 = -(1 / 500) from by norm_num, abs_neg,
      abs_of_nonneg (by norm_num : (0 : ℚ) ≤ 1 / 500)]
    norm_num

/-! ### The 555 nm spike (claim C2) -/

lemma luminous_efficiency_eq (spd lef : SPD) :
    luminous_efficiency spd lef =
      if integrate (align spd (nativeShape lef)) = 0 then none
      else some (integrate_product (align spd (nativeShape lef)) lef /
        integrate (align spd (nativeShape lef))) := rfl

lemma uniList_congr (a d : ℚ) (n : ℕ) (f g : ℕ → ℚ)
    (h : ∀ i, i < n → f i = g i) : uniList a d n f = uniList a d n g := by
  unfold uniList
  refine List.map_congr_left fun i hi => ?_
  rw [h i (List.mem_range.mp hi)]

lemma uniList_succ (a d : ℚ) (n : ℕ) (f : ℕ → ℚ) :
    uniList a d (n + 1) f =
      (a, f 0) :: uniList (a + d) d n fun i => f (i + 1) := by
  unfold uniList
  rw [show List.range (n + 1) = 0 :: (List.range n).map Nat.succ from
      List.range_succ_eq_map n]
  rw [List.map_cons, List.map_map]
  congr 1
  · simp
  · refine List.map_congr_left fun i _ => ?_
    simp only [Function.comp_apply, Prod.mk.injEq]
    refine ⟨by push_cast; ring, trivial⟩

lemma zeros_spd_eq : zeros_spd = uniList 360 1 421 fun _ => 0 := by
  unfold zeros_spd uniList
  refine List.map_congr_left fun i _ => ?_
  simp

lemma setValue_uniList (d : ℚ) (hd : 0 < d) :
    ∀ (n : ℕ) (a : ℚ) (f : ℕ → ℚ) (j : ℕ), j < n → ∀ v : ℚ,
      setValue (uniList a d n f) (a + (j : ℚ) * d) v =
        uniList a d n fun i => if i = j then v else f i := by
  intro n
  induction n with
  | zero => intro a f j hj v; omega
  | succ m ih =>
    intro a f j hj v
    rw [uniList_succ a d m f, uniList_succ a d m]
    cases j with
    | zero =>
      simp only [Nat.cast_zero, zero_mul, add_zero]
      simp [setValue]
    | succ j' =>
      have hj' : j' < m := by omega
      push_cast
      have hwgt : a < a + ((j' : ℚ) + 1) * d := by
        have hp : (0 : ℚ) < ((j' : ℚ) + 1) * d := by
          apply mul_pos _ hd
          positivity
        linarith
      have hrec : setValue (uniList (a + d) d m fun i => f (i + 1))
          (a + ((j' : ℚ) + 1) * d) v =
          uniList (a + d) d m fun i => if i = j' then v else f (i + 1) := by
        rw [show a + ((j' : ℚ) + 1) * d = a + d + (j' : ℚ) * d from by ring]
        have hi := ih (a + d) (fun i => f (i + 1)) j' hj' v
        push_cast at hi
        exact hi
      simp only [setValue]
      rw [if_neg (not_lt.mpr hwgt.le), if_neg hwgt.ne', hrec]

lemma spike_eq :
    setValue zeros_spd 555 1 =
      uniList 360 1 421 fun i => if i = 195 then 1 else 0 := by
  rw [zeros_spd_eq,
    show (555 : ℚ) = 360 + ((195 : ℕ) : ℚ) * 1 from by norm_num,
    setValue_uniList 1 one_pos 421 360 (fun _ => 0) 195 (by norm_num) 1]

/-- C2: for a luminous efficiency function sampled on any 1 nm integer grid
covering [360, 780] with value 1 at 555 nm (the spec fixes `lef(555) = 1` for
the default photopic function), the luminous efficacy of the synthetic SPD
`zeros_spd()` with value 1 at 555 nm equals 682.99999999999989 to at least 7
decimal places (the exact model value is 683). -/
theorem claim_C2_spike_efficacy (A B : ℕ) (hA : A ≤ 360) (hB : 780 ≤ B)
    (f : ℕ → ℚ) (h555 : f (555 - A) = 1) :
    ∃ e, luminous_efficacy (setValue zeros_spd 555 1)
        (uniList (A : ℚ) 1 (B - A + 1) f) = some e ∧
      |e - 682.99999999999989| < 1 / 10 ^ 7 := by
  refine ⟨683, ?_, by
    rw [show (683 : ℚ) - 682.99999999999989 = 11 / 100000000000000 from by
        norm_num,
      abs_of_nonneg (by norm_num : (0 : ℚ) ≤ 11 / 100000000000000)]
    norm_num⟩
  set n := B - A + 1 with hn
  have hn2 : 2 ≤ n := by omega
  have hm : n - 1 + 1 = n := by omega
  have halign : align (setValue zeros_spd 555 1)
      (nativeShape (uniList (A : ℚ) 1 n f)) =
      (List.range n).map fun (i : ℕ) =>
        ((A : ℚ) + (i : ℚ) * 1,
          query (setValue zeros_spd 555 1) ((A : ℚ) + (i : ℚ) * 1)) := by
    rw [nativeShape_uniList (A : ℚ) 1 n hn2 f,
      show ((A : ℚ) + ((n - 1 : ℕ) : ℚ) * 1) = ((A : ℚ) + ((n - 1 : ℕ) : ℚ) * 1)
        from rfl,
      align_shape_map _ (A : ℚ) 1 one_ne_zero (n - 1), hm]
  have hq : ∀ i : ℕ, i < n →
      query (setValue zeros_spd 555 1) ((A : ℚ) + (i : ℚ) * 1) =
        if A + i = 555 then 1 else 0 := by
    intro i _
    have hwcast : (A : ℚ) + (i : ℚ) * 1 = ((A + i : ℕ) : ℚ) := by
      push_cast
      ring
    rw [spike_eq, hwcast]
    rcases Nat.lt_or_ge (A + i) 360 with hlt | hge
    · rw [query_uniList_le 360 1 421 (by norm_num) _ _
        (by exact_mod_cast hlt.le)]
      rw [if_neg (by omega), if_neg (by omega)]
    · rcases Nat.lt_or_ge 780 (A + i) with hgt | hle
      · rw [query_uniList_ge 360 1 one_pos 421 (by norm_num) _ _ ?_]
        · rw [show (421 : ℕ) - 1 = 420 from rfl,
            if_neg (by omega : ¬ (420 : ℕ) = 195), if_neg (by omega)]
        · rw [show (421 : ℕ) - 1 = 420 from rfl]
          push_cast
          have : (780 : ℚ) < ((A + i : ℕ) : ℚ) := by exact_mod_cast hgt
          linarith
      · have hj : A + i - 360 < 421 := by omega
        have hkey : ((A + i : ℕ) : ℚ) = 360 + ((A + i - 360 : ℕ) : ℚ) * 1 := by
          rw [Nat.cast_sub hge]
          push_cast
          ring
        rw [hkey, query_uniList_exact 360 1 one_pos 421 (A + i - 360) hj]
        rcases eq_or_ne (A + i) 555 with h5 | h5
        · rw [if_pos (by omega), if_pos h5]
        · rw [if_neg (by omega), if_neg h5]
  have hvals : values (align (setValue zeros_spd 555 1)
      (nativeShape (uniList (A : ℚ) 1 n f))) =
      (List.range n).map fun (i : ℕ) => if A + i = 555 then (1 : ℚ) else 0 := by
    rw [halign]
    unfold values
    rw [List.map_map]
    refine List.map_congr_left fun i hi => ?_
    exact hq i (List.mem_range.mp hi)
  have hkeys : wavelengths (align (setValue zeros_spd 555 1)
      (nativeShape (uniList (A : ℚ) 1 n f))) =
      (List.range n).map fun (i : ℕ) => (A : ℚ) + (i : ℚ) * 1 := by
    rw [halign]
    unfold wavelengths
    rw [List.map_map]
    exact List.map_congr_left fun i _ => rfl
  have hj555 : 555 - A < n := by omega
  have hsum : ((List.range n).map
      fun (i : ℕ) => if A + i = 555 then (1 : ℚ) else 0).sum = 1 := by
    rw [sum_map_range_single _ n (555 - A) hj555
      (fun i _ hne => if_neg (by omega))]
    rw [if_pos (by omega)]
  have hden : integrate (align (setValue zeros_spd 555 1)
      (nativeShape (uniList (A : ℚ) 1 n f))) = 1 := by
    unfold integrate
    rw [hvals, hkeys, intervalOf_map_range (A : ℚ) 1 n hn2, hsum, mul_one]
  have hnum : integrate_product (align (setValue zeros_spd 555 1)
      (nativeShape (uniList (A : ℚ) 1 n f))) (uniList (A : ℚ) 1 n f) = 1 := by
    unfold integrate_product
    rw [hvals, hkeys, values_uniList, intervalOf_map_range (A : ℚ) 1 n hn2,
      mul_one, zipWith_map_same]
    rw [sum_map_range_single _ n (555 - A)
      hj555 (fun i _ hne => by rw [if_neg (by omega), zero_mul])]
    rw [if_pos (by omega), one_mul, h555]
  rw [luminous_efficacy, luminous_efficiency_eq, hden, hnum]
  norm_num [K_M]

/-- C2 witness: the concrete grid 360..780 nm with the unit value at 555 nm. -/
theorem claim_C2_witness :
    ∃ e, luminous_efficacy (setValue zeros_spd 555 1)
        (uniList ((360 : ℕ) : ℚ) 1 (780 - 360 + 1)
          fun i => if i = 195 then (1 : ℚ) else 0) = some e ∧
      |e - 682.99999999999989| < 1 / 10 ^ 7 :=
  claim_C2_spike_efficacy 360 780 (le_refl 360) (le_refl 780) _ (by norm_num)

/-! ### Colourspace-model dispatch (`colour/models/common.py`) -/

/-- The published tuple `COLOURSPACE_MODELS` of `colour/models/common.py`. -/
def COLOURSPACE_MODELS : List String :=
  ["CIE XYZ", "CIE xyY", "CIE Lab", "CIE Luv", "CIE UCS", "CIE UVW", "IPT"]

/-- The conversion formulas imported by `colour/models/common.py`; their
modules are external collaborators outside the source tree, so the dispatch
is embedded parametrically in them.  Value vectors are lists of rationals. -/
structure ModelFns where
  XYZ_to_xyY : List ℚ → List ℚ → List ℚ
  XYZ_to_xy : List ℚ → List ℚ → List ℚ
  XYZ_to_Lab : List ℚ → List ℚ → List ℚ
  Lab_to_LCHab : List ℚ → List ℚ
  XYZ_to_Luv : List ℚ → List ℚ → List ℚ
  Luv_to_uv : List ℚ → List ℚ → List ℚ
  Luv_to_LCHuv : List ℚ → List ℚ
  XYZ_to_UCS : List ℚ → List ℚ
  UCS_to_uv : List ℚ → List ℚ
  XYZ_to_UVW : List ℚ → List ℚ → List ℚ
  XYZ_to_IPT : List ℚ → List ℚ

/-- The `ValueError` message of `XYZ_to_colourspace_model`: it names the
offending identifier and lists `COLOURSPACE_MODELS` (only the published
seven, although more identifiers are accepted). -/
def unsupportedMsg (model : String) : String :=
  "\"" ++ model ++
    "\" not found in colourspace models: \"CIE XYZ, CIE xyY, CIE Lab, CIE Luv, CIE UCS, CIE UVW, IPT\"."

/-- `XYZ_to_colourspace_model(XYZ, illuminant, model)` from
`colour/models/common.py`.  The source runs a sequence of independent `if`
tests against distinct string constants and raises `ValueError` when none
assigned a value; since at most one test can match, this is the equivalent
if/else chain, with the error embedded as `Except.error`.  The `CIE UVW`
branch scales the tristimulus values by 100 exactly as the source does. -/
def XYZ_to_colourspace_model (F : ModelFns) (XYZ illuminant : List ℚ)
    (model : String) : Except String (List ℚ) :=
  if model = "CIE XYZ" then .ok XYZ
  else if model = "CIE xyY" then .ok (F.XYZ_to_xyY XYZ illuminant)
  else if model = "CIE xy" then .ok (F.XYZ_to_xy XYZ illuminant)
  else if model = "CIE Lab" then .ok (F.XYZ_to_Lab XYZ illuminant)
  else if model = "CIE LCHab" then
    .ok (F.Lab_to_LCHab (F.XYZ_to_Lab XYZ illuminant))
  else if model = "CIE Luv" then .ok (F.XYZ_to_Luv XYZ illuminant)
  else if model = "CIE Luv uv" then
    .ok (F.Luv_to_uv (F.XYZ_to_Luv XYZ illuminant) illuminant)
  else if model = "CIE LCHuv" then
    .ok (F.Luv_to_LCHuv (F.XYZ_to_Luv XYZ illuminant))
  else if model = "CIE UCS" then .ok (F.XYZ_to_UCS XYZ)
  else if model = "CIE UCS uv" then .ok (F.UCS_to_uv (F.XYZ_to_UCS XYZ))
  else if model = "CIE UVW" then
    .ok (F.XYZ_to_UVW (XYZ.map fun x => x * 100) illuminant)
  else if model = "IPT" then .ok (F.XYZ_to_IPT XYZ)
  else .error (unsupportedMsg model)

/-- The twelve identifiers the dispatch actually accepts — a strict superset
of `COLOURSPACE_MODELS`. -/
def handledModels : List String :=
  ["CIE XYZ", "CIE xyY", "CIE xy", "CIE Lab", "CIE LCHab", "CIE Luv",
    "CIE Luv uv", "CIE LCHuv", "CIE UCS", "CIE UCS uv", "CIE UVW", "IPT"]

/-- A trivial instantiation of the external conversion formulas, enough to
exercise the dispatch logic. -/
def trivialFns : ModelFns where
  XYZ_to_xyY := fun _ _ => []
  XYZ_to_xy := fun _ _ => []
  XYZ_to_Lab := fun _ _ => []
  Lab_to_LCHab := fun _ => []
  XYZ_to_Luv := fun _ _ => []
  Luv_to_uv := fun _ _ => []
  Luv_to_LCHuv := fun _ => []
  XYZ_to_UCS := fun _ => []
  UCS_to_uv := fun _ => []
  XYZ_to_UVW := fun _ _ => []
  XYZ_to_IPT := fun _ => []

/-- C8 (amended): the dispatch returns a value for each of the twelve branch
identifiers (CIE XYZ, CIE xyY, CIE xy, CIE Lab, CIE LCHab, CIE Luv,
CIE Luv uv, CIE LCHuv, CIE UCS, CIE UCS uv, CIE UVW, IPT) and raises the
`ValueError` naming the identifier for every string outside that set — not
outside `COLOURSPACE_MODELS`, which lists only seven of the twelve. -/
theorem claim_C8_dispatch_total_on_handled (F : ModelFns)
    (XYZ illuminant : List ℚ) (model : String) :
    (model ∈ handledModels →
      ∃ v, XYZ_to_colourspace_model F XYZ illuminant model = .ok v) ∧
    (model ∉ handledModels →
      XYZ_to_colourspace_model F XYZ illuminant model =
        .error (unsupportedMsg model)) := by
  constructor
  · intro hmem
    simp only [handledModels, List.mem_cons, List.not_mem_nil, or_false] at hmem
    rcases hmem with rfl | rfl | rfl | rfl | rfl | rfl | rfl | rfl | rfl | rfl
      | rfl | rfl
    all_goals exact ⟨_, rfl⟩
  · intro hmem
    simp only [handledModels, List.mem_cons, List.not_mem_nil, or_false,
      not_or] at hmem
    obtain ⟨h1, h2, h3, h4, h5, h6, h7, h8, h9, h10, h11, h12⟩ := hmem
    unfold XYZ_to_colourspace_model
    rw [if_neg h1, if_neg h2, if_neg h3, if_neg h4, if_neg h5, if_neg h6,
      if_neg h7, if_neg h8, if_neg h9, if_neg h10, if_neg h11, if_neg h12]

/-- C8 counterexample: the identifier `CIE LCHab` is outside
`COLOURSPACE_MODELS`, yet the dispatch silently returns a value for it
instead of raising an error — refuting the claim that every identifier
outside the supported set `COLOURSPACE_MODELS` raises an error. -/
theorem claim_C8_counterexample :
    "CIE LCHab" ∉ COLOURSPACE_MODELS ∧
      ∃ v, XYZ_to_colourspace_model trivialFns [1, 1, 1] [1, 1] "CIE LCHab" =
        .ok v := by
  refine ⟨?_, ⟨_, rfl⟩⟩
  simp [COLOURSPACE_MODELS]

/-- C8 witness: a handled identifier returns a value and an unknown one
raises the error naming it. -/
theorem claim_C8_witness :
    (∃ v, XYZ_to_colourspace_model trivialFns [1, 1, 1] [1, 1] "CIE Lab" =
      .ok v) ∧
    XYZ_to_colourspace_model trivialFns [1, 1, 1] [1, 1] "CIE HunterLab" =
      .error (unsupportedMsg "CIE HunterLab") :=
  ⟨(claim_C8_dispatch_total_on_handled trivialFns [1, 1, 1] [1, 1]
      "CIE Lab").1 (by simp [handledModels]),
    (claim_C8_dispatch_total_on_handled trivialFns [1, 1, 1] [1, 1]
      "CIE HunterLab").2 (by simp [handledModels])⟩

/-! ### ROMM / RIMM transfer functions
(`colour/models/rgb/transfer_functions/rimm_romm_rgb.py`), idealised over the
reals -/

/-- `oetf_ROMMRGB(value)`: `value * 16` below 0.001953, else
`value ** (1 / 1.8)`. -/
noncomputable def oetf_ROMMRGB (value : ℝ) : ℝ :=
  if value < 0.001953 then value * 16 else value ^ ((1 : ℝ) / 1.8)

/-- `eotf_ROMMRGB(value)`: `value / 16` below `oetf_ROMMRGB(0.001953)`, else
`value ** 1.8`. -/
noncomputable def eotf_ROMMRGB (value : ℝ) : ℝ :=
  if value < oetf_ROMMRGB 0.001953 then value / 16 else value ^ (1.8 : ℝ)

/-- `oetf_RIMMRGB(value, I_max, E_clip)`: `numpy.select` picks the first true
condition, so the condition order `[value < 0, value < 0.018,
value >= 0.018, value > E_clip]` is embedded as the same if/else chain; the
final `I_max` choice (for `value > E_clip`) is unreachable exactly as in the
source, because `value >= 0.018` matches first. -/
noncomputable def oetf_RIMMRGB (value I_max E_clip : ℝ) : ℝ :=
  let V_clip := 1.099 * E_clip ^ (0.45 : ℝ) - 0.099
  let q := I_max / V_clip
  let X_p_RIMM :=
    if value < 0 then 0
    else if value < 0.018 then 4.5 * value
    else if 0.018 ≤ value then 1.099 * value ^ (0.45 : ℝ) - 0.099
    else I_max
  q * X_p_RIMM

lemma romm_threshold_lt :
    (16 : ℝ) * 0.001953 < (0.001953 : ℝ) ^ ((5 : ℝ) / 9) := by
  have hb : (0 : ℝ) < 0.001953 := by norm_num
  have hr : ((0.001953 : ℝ) ^ ((5 : ℝ) / 9)) ^ (9 : ℕ) =
      (0.001953 : ℝ) ^ (5 : ℕ) := by
    rw [← Real.rpow_natCast ((0.001953 : ℝ) ^ ((5 : ℝ) / 9)) 9,
      ← Real.rpow_mul hb.le, ← Real.rpow_natCast (0.001953 : ℝ) 5]
    congr 1
    push_cast
    norm_num
  have h9 : ((16 : ℝ) * 0.001953) ^ (9 : ℕ) <
      ((0.001953 : ℝ) ^ ((5 : ℝ) / 9)) ^ (9 : ℕ) := by
    rw [hr]
    norm_num
  exact lt_of_pow_lt_pow_left₀ 9 (Real.rpow_nonneg hb.le _) h9

/-- C9: over the reals, the ROMM RGB EOTF inverts the ROMM RGB OETF exactly
on every non-negative input; the encoding threshold `value < 0.001953` and
the decoding threshold `value < oetf_ROMMRGB(0.001953)` select matching
branches, since `16 * 0.001953` lies strictly below
`0.001953 ** (1 / 1.8)`. -/
theorem claim_C9_romm_round_trip (x : ℝ) (hx : 0 ≤ x) :
    eotf_ROMMRGB (oetf_ROMMRGB x) = x := by
  have hexp : (1 : ℝ) / 1.8 = 5 / 9 := by norm_num
  have hb : (0 : ℝ) < 0.001953 := by norm_num
  have ht : oetf_ROMMRGB 0.001953 = (0.001953 : ℝ) ^ ((5 : ℝ) / 9) := by
    unfold oetf_ROMMRGB
    rw [if_neg (lt_irrefl _), hexp]
  by_cases hcase : x < 0.001953
  · have h16 : oetf_ROMMRGB x = x * 16 := by
      unfold oetf_ROMMRGB
      rw [if_pos hcase]
    have hlt : x * 16 < (0.001953 : ℝ) ^ ((5 : ℝ) / 9) :=
      calc x * 16 < 0.001953 * 16 :=
            mul_lt_mul_of_pos_right hcase (by norm_num)
        _ = 16 * 0.001953 := by ring
        _ < (0.001953 : ℝ) ^ ((5 : ℝ) / 9) := romm_threshold_lt
    rw [h16]
    unfold eotf_ROMMRGB
    rw [ht, if_pos hlt]
    ring
  · push_neg at hcase
    have hpow : oetf_ROMMRGB x = x ^ ((5 : ℝ) / 9) := by
      unfold oetf_ROMMRGB
      rw [if_neg (not_lt.mpr hcase), hexp]
    have hge : (0.001953 : ℝ) ^ ((5 : ℝ) / 9) ≤ x ^ ((5 : ℝ) / 9) :=
      Real.rpow_le_rpow hb.le hcase (by norm_num)
    rw [hpow]
    unfold eotf_ROMMRGB
    rw [ht, if_neg (not_lt.mpr hge),
      show (1.8 : ℝ) = 9 / 5 from by norm_num, ← Real.rpow_mul hx,
      show (5 : ℝ) / 9 * (9 / 5) = 1 from by norm_num, Real.rpow_one]

/-- C9 witness: the round trip at the concrete input 0. -/
theorem claim_C9_witness : eotf_ROMMRGB (oetf_ROMMRGB 0) = 0 :=
  claim_C9_romm_round_trip 0 le_rfl

/-- C10 (code bug): `oetf_RIMMRGB` does not clip inputs above `E_clip`.
`numpy.select` picks the first true condition and `value >= 0.018` precedes
`value > E_clip`, so the `I_max` clip choice is dead code; at `value = 3`
with the default `I_max = 255`, `E_clip = 2`, the encoded value strictly
exceeds `I_max = 255` where the claim requires exactly `I_max`. -/
theorem claim_C10_rimm_clip_unreachable : 255 < oetf_RIMMRGB 3 255 2 := by
  show (255 : ℝ) < 255 / (1.099 * (2 : ℝ) ^ (0.45 : ℝ) - 0.099) *
    (if (3 : ℝ) < 0 then 0
      else if (3 : ℝ) < 0.018 then 4.5 * 3
      else if (0.018 : ℝ) ≤ 3 then 1.099 * (3 : ℝ) ^ (0.45 : ℝ) - 0.099
      else 255)
  rw [if_neg (by norm_num), if_neg (by norm_num), if_pos (by norm_num)]
  have h2 : (1 : ℝ) ≤ (2 : ℝ) ^ (0.45 : ℝ) :=
    Real.one_le_rpow (by norm_num) (by norm_num)
  have hV : (0 : ℝ) < 1.099 * (2 : ℝ) ^ (0.45 : ℝ) - 0.099 := by nlinarith
  have hmono : (2 : ℝ) ^ (0.45 : ℝ) < (3 : ℝ) ^ (0.45 : ℝ) :=
    Real.rpow_lt_rpow (by norm_num) (by norm_num) (by norm_num)
  have hq : (0 : ℝ) < 255 / (1.099 * (2 : ℝ) ^ (0.45 : ℝ) - 0.099) :=
    div_pos (by norm_num) hV
  calc (255 : ℝ)
      = 255 / (1.099 * (2 : ℝ) ^ (0.45 : ℝ) - 0.099) *
        (1.099 * (2 : ℝ) ^ (0.45 : ℝ) - 0.099) :=
        (div_mul_cancel₀ _ hV.ne').symm
    _ < 255 / (1.099 * (2 : ℝ) ^ (0.45 : ℝ) - 0.099) *
        (1.099 * (3 : ℝ) ^ (0.45 : ℝ) - 0.099) := by
        apply mul_lt_mul_of_pos_left _ hq
        nlinarith

end Colour
